import Mathlib

/-!
# libuv, `src/unix/fsevents.c`: the FSEvents bridge

A shallow embedding of the event translator `uv__fsevents_event_cb`, the consumer
dispatch `uv__fsevents_cb` (with the macro `UV__FSEVENTS_WALK`) and `uv__fsevents_close`,
followed by theorems about them.

Conventions of the embedding.

* A C string is the list of its characters before the terminating NUL; `*p != 0` is
  `p ≠ []`, `p + n` is `p.drop n`, and `strlen` is `List.length`. Paths are shorter than
  `2 ^ 31` bytes, so `int len = strlen(path)` does not wrap.
* A `QUEUE` is the list of its members, head first.
* Pointers returned by `strstr` and `strchr` are offsets into the searched string, `NULL`
  is `none`.
* The file has two variants; the embedding is of the one compiled when `TARGET_OS_IPHONE`
  is not set (source lines 42-479).
* The code runs on two threads; the embedding is sequential: every function runs to its
  end before the next one starts, the mutex calls are dropped, and `uv_sem_wait` returns.
* Ghost fields of `State` record what the code did to the outside: the user callback
  invocations, the events passed to `free`, and the calls into the native facility.
-/

namespace FSEvents

/-! ## Constants of the system headers -/

/-- The bit `kFSEventStreamEventFlagUserDropped` of CoreServices, FSEvents.h. -/
def kFSEventStreamEventFlagUserDropped : Nat := 0x00000002
/-- The bit `kFSEventStreamEventFlagKernelDropped` of CoreServices, FSEvents.h. -/
def kFSEventStreamEventFlagKernelDropped : Nat := 0x00000004
/-- The bit `kFSEventStreamEventFlagEventIdsWrapped` of CoreServices, FSEvents.h. -/
def kFSEventStreamEventFlagEventIdsWrapped : Nat := 0x00000008
/-- The bit `kFSEventStreamEventFlagHistoryDone` of CoreServices, FSEvents.h. -/
def kFSEventStreamEventFlagHistoryDone : Nat := 0x00000010
/-- The bit `kFSEventStreamEventFlagRootChanged` of CoreServices, FSEvents.h. -/
def kFSEventStreamEventFlagRootChanged : Nat := 0x00000020
/-- The bit `kFSEventStreamEventFlagMount` of CoreServices, FSEvents.h. -/
def kFSEventStreamEventFlagMount : Nat := 0x00000040
/-- The bit `kFSEventStreamEventFlagUnmount` of CoreServices, FSEvents.h. -/
def kFSEventStreamEventFlagUnmount : Nat := 0x00000080
/-- The bit `kFSEventStreamEventFlagItemCreated` of CoreServices, FSEvents.h. -/
def kFSEventStreamEventFlagItemCreated : Nat := 0x00000100
/-- The bit `kFSEventStreamEventFlagItemRemoved` of CoreServices, FSEvents.h. -/
def kFSEventStreamEventFlagItemRemoved : Nat := 0x00000200
/-- The bit `kFSEventStreamEventFlagItemInodeMetaMod` of CoreServices, FSEvents.h. -/
def kFSEventStreamEventFlagItemInodeMetaMod : Nat := 0x00000400
/-- The bit `kFSEventStreamEventFlagItemRenamed` of CoreServices, FSEvents.h. -/
def kFSEventStreamEventFlagItemRenamed : Nat := 0x00000800
/-- The bit `kFSEventStreamEventFlagItemModified` of CoreServices, FSEvents.h. -/
def kFSEventStreamEventFlagItemModified : Nat := 0x00001000
/-- The bit `kFSEventStreamEventFlagItemFinderInfoMod` of CoreServices, FSEvents.h. -/
def kFSEventStreamEventFlagItemFinderInfoMod : Nat := 0x00002000
/-- The bit `kFSEventStreamEventFlagItemChangeOwner` of CoreServices, FSEvents.h. -/
def kFSEventStreamEventFlagItemChangeOwner : Nat := 0x00004000
/-- The bit `kFSEventStreamEventFlagItemXattrMod` of CoreServices, FSEvents.h. -/
def kFSEventStreamEventFlagItemXattrMod : Nat := 0x00008000

/-- The errno value `EINVAL` of errno.h (a positive `int`). -/
def EINVAL : Nat := 22

/-! ## Constants and types of libuv headers that the file includes -/

/-- Constants that `fsevents.c` takes from `uv.h`, `internal.h` and the SDK: the handle
flag bits, the watcher flag bit, and whether the macro `MAC_OS_X_VERSION_10_7` is defined
(the native facility then reports per-item paths). They are parameters of the embedding. -/
structure Build where
  UV_CLOSING : Nat
  UV_CLOSED : Nat
  UV_FS_EVENT_RECURSIVE : Nat
  MAC_OS_X_VERSION_10_7 : Bool
deriving DecidableEq, Repr

/-- A build on an SDK that defines `MAC_OS_X_VERSION_10_7`, with one bit for each of the
three flags. It is used for concrete runs only; what is proved in general is proved for
every `Build`. -/
def build_10_7 : Build :=
  { UV_CLOSING := 0x01, UV_CLOSED := 0x02, UV_FS_EVENT_RECURSIVE := 4,
    MAC_OS_X_VERSION_10_7 := true }

/-- Modelled from the spec: the enum `uv_fs_event` of `uv.h`, the two-valued logical
vocabulary `kind: Change | Rename`. -/
inductive uv_fs_event where
  | UV_RENAME
  | UV_CHANGE
deriving DecidableEq, Repr

/-- The struct `uv__fsevents_event_s` (source lines 61-65): the kind and the path; the
`QUEUE member` is the position in the list that holds the event. -/
structure uv__fsevents_event_t where
  events : uv_fs_event
  path : List Char
deriving DecidableEq, Repr

/-- Modelled from the spec: the fields of `uv_fs_event_t` (declared in `uv.h` and
`uv-build_10_7.h`) that `fsevents.c` reads or writes. `flags` holds the lifecycle state,
`event_watcher_fd` is `event_watcher.fd`, `cf_flags` the watcher flags, `realpath` and
`realpath_len` the resolved path (`none` is `NULL`), `cf_eventstream` the native stream
(`none` is `NULL`), `cf_events` the queue of pending events. -/
structure uv_fs_event_t where
  flags : Nat
  event_watcher_fd : Int
  cf_flags : Nat
  realpath : Option (List Char)
  realpath_len : Nat
  cf_eventstream : Option Nat
  cf_events : List uv__fsevents_event_t
deriving DecidableEq, Repr

/-- One raw record of a delivery: `eventPaths[i]` and `eventFlags[i]` (`eventIds[i]` is
never read). `numEvents` is the length of the list of records. -/
structure FSEventRecord where
  path : List Char
  flags : Nat
deriving DecidableEq, Repr

/-- Calls that leave `fsevents.c`, recorded in order. -/
inductive NativeOp where
  | uv_async_send
  | uv_sem_wait
  | FSEventStreamStop (stream : Nat)
  | FSEventStreamInvalidate (stream : Nat)
  | FSEventStreamRelease (stream : Nat)
  | uv_close_cf_cb
  | uv_mutex_destroy
  | uv_sem_destroy
  | free_realpath (p : Option (List Char))
deriving DecidableEq, Repr

/-- One invocation `handle->cb(handle, filename, events, status)`: the handle as it was
when the callback was entered, and the three other arguments. -/
structure CbCall where
  handle : uv_fs_event_t
  filename : Option (List Char)
  events : uv_fs_event
  status : Int
deriving DecidableEq, Repr

/-- The handle together with the ghost record of what has been done so far. -/
structure State where
  handle : uv_fs_event_t
  calls : List CbCall
  freed : List uv__fsevents_event_t
  native : List NativeOp
deriving DecidableEq, Repr

/-- The user callback `handle->cb`: user code receives the handle and may change it. -/
abbrev uv_fs_event_cb :=
  uv_fs_event_t → Option (List Char) → uv_fs_event → Int → uv_fs_event_t

/-! ## The queue macros of `queue.h` -/

/-- Modelled from the spec: the macro `QUEUE_INSERT_TAIL` of `queue.h`, "append to a local
batch": the member `q` becomes the last member of the queue `h`. -/
def QUEUE_INSERT_TAIL (h : List uv__fsevents_event_t) (q : uv__fsevents_event_t) :
    List uv__fsevents_event_t :=
  h ++ [q]

/-- Modelled from the spec: the macro `QUEUE_ADD` of `queue.h`, "splice the local batch
onto the tail of `pendingEvents` (preserving arrival order)". -/
def QUEUE_ADD (h n : List uv__fsevents_event_t) : List uv__fsevents_event_t :=
  h ++ n

/-- Modelled from the spec: the macro `QUEUE_SPLIT(h, q, n)` of `queue.h`, "splices
`pendingEvents` into a local batch": the members of `h` from the one at position `q` on
move to the queue `n`, the members before it stay. The result is the pair of `h` and `n`
afterwards. -/
def QUEUE_SPLIT (h : List uv__fsevents_event_t) (q : Nat) :
    List uv__fsevents_event_t × List uv__fsevents_event_t :=
  (h.take q, h.drop q)

/-! ## libc string functions -/

/-- Whether the string `s` begins with the string `p`. -/
def startsWith : List Char → List Char → Bool
  | _, [] => true
  | [], _ :: _ => false
  | c :: s, d :: p => c == d && startsWith s p

/-- The libc function `strstr`: offset of the first occurrence of `needle` in `hay`. -/
def strstr : List Char → List Char → Option Nat
  | [], needle => if startsWith [] needle then some 0 else none
  | c :: t, needle =>
    if startsWith (c :: t) needle then some 0 else (strstr t needle).map (· + 1)

/-- The libc function `strchr`: offset of the first occurrence of `ch` in `s`. -/
def strchr : List Char → Char → Option Nat
  | [], _ => none
  | c :: t, ch => if c = ch then some 0 else (strchr t ch).map (· + 1)

/-! ## The event translator `uv__fsevents_event_cb` (source lines 117-212) -/

/-- The local `kFSEventsModified` (source lines 134-138). -/
def kFSEventsModified : Nat :=
  kFSEventStreamEventFlagItemFinderInfoMod |||
  kFSEventStreamEventFlagItemModified |||
  kFSEventStreamEventFlagItemInodeMetaMod |||
  kFSEventStreamEventFlagItemChangeOwner |||
  kFSEventStreamEventFlagItemXattrMod

/-- The local `kFSEventsRenamed` (source lines 139-141). -/
def kFSEventsRenamed : Nat :=
  kFSEventStreamEventFlagItemCreated |||
  kFSEventStreamEventFlagItemRemoved |||
  kFSEventStreamEventFlagItemRenamed

/-- The mask of the test "Ignore system events" (source lines 149-155). -/
def systemEventMask : Nat :=
  kFSEventStreamEventFlagUserDropped |||
  kFSEventStreamEventFlagKernelDropped |||
  kFSEventStreamEventFlagEventIdsWrapped |||
  kFSEventStreamEventFlagHistoryDone |||
  kFSEventStreamEventFlagMount |||
  kFSEventStreamEventFlagUnmount |||
  kFSEventStreamEventFlagRootChanged

/-- What one turn of the loop does with a record, up to the call of `malloc`:
`undefined` when the C code has no defined behaviour (`strstr` on a `NULL` realpath, or
`path += realpath_len` running past the end of the string), `skip` for `continue`, and
`emit e` when the turn reaches `malloc`, `e` being the event it builds if `malloc`
succeeds. -/
inductive Verdict where
  | undefined
  | skip
  | emit (event : uv__fsevents_event_t)
deriving DecidableEq, Repr

/-- The block "Remove absolute path prefix" (source lines 163-173) on the locals `path` and
`len`; `none` when `path + realpath_len` lies past the terminator. -/
def removeAbsolutePath (handle : uv_fs_event_t) (realpath : List Char)
    (path : List Char) (len : Int) : Option (List Char × Int) :=
  if strstr path realpath = some 0 then
    if path.length < handle.realpath_len then none
    else
      let path := path.drop handle.realpath_len
      let len := len - handle.realpath_len
      /- Skip back slash -/
      if path ≠ [] then some (path.drop 1, len - 1) else some (path, len)
  else some (path, len)

/-- The body of the loop for one record (source lines 148-203), up to `malloc`. -/
def translate (B : Build) (handle : uv_fs_event_t) (r : FSEventRecord) : Verdict :=
  /- Ignore system events -/
  if r.flags &&& systemEventMask ≠ 0 then Verdict.skip
  else
    match handle.realpath with
    | none => Verdict.undefined
    | some realpath =>
      match removeAbsolutePath handle realpath r.path r.path.length with
      | none => Verdict.undefined
      | some (path, len) =>
        /- Ignore events with path equal to directory itself -/
        if B.MAC_OS_X_VERSION_10_7 = true ∧ len = 0 then Verdict.skip
        else
          /- Do not emit events from subdirectories (without option set) -/
          let pos := strchr path '/'
          if handle.cf_flags &&& B.UV_FS_EVENT_RECURSIVE = 0 ∧ pos ≠ none ∧ pos ≠ some 1 then
            Verdict.skip
          else
            let path := if B.MAC_OS_X_VERSION_10_7 = true then path else []
            Verdict.emit
              { events :=
                  if r.flags &&& kFSEventsModified ≠ 0 ∧ r.flags &&& kFSEventsRenamed = 0 then
                    uv_fs_event.UV_CHANGE
                  else uv_fs_event.UV_RENAME,
                path := path }

/-- The loop `for (i = 0; i < numEvents; i++)` (source lines 147-206). `malloc k` tells
whether the call number `k` of `malloc` in this run succeeds; `calls` counts the calls
made so far and `add_list` is the local queue. The result is the final `add_list`, or
`none` when a turn has no defined behaviour. -/
def translateLoop (B : Build) (malloc : Nat → Bool) (handle : uv_fs_event_t) :
    List FSEventRecord → Nat → List uv__fsevents_event_t →
      Option (List uv__fsevents_event_t)
  | [], _, add_list => some add_list
  | r :: rest, calls, add_list =>
    match translate B handle r with
    | Verdict.undefined => none
    | Verdict.skip => translateLoop B malloc handle rest calls add_list
    | Verdict.emit event =>
      if malloc calls = true then
        translateLoop B malloc handle rest (calls + 1) (QUEUE_INSERT_TAIL add_list event)
      else
        /- if (event == NULL) break -/
        some add_list


/-- The end of `uv__fsevents_event_cb` (source lines 207-211): splice `add_list` onto
`handle->cf_events` under the mutex and post a wake with `uv_async_send`. -/
def spliceAndWake (st : State) (add_list : List uv__fsevents_event_t) : State :=
  { st with
    handle := { st.handle with cf_events := QUEUE_ADD st.handle.cf_events add_list },
    native := st.native ++ [NativeOp.uv_async_send] }

/-- The function `uv__fsevents_event_cb`: translate the records of one delivery, then
splice the local queue onto `handle->cf_events` and post a wake. The result is `none` when
the run has no defined behaviour. -/
def uv__fsevents_event_cb (B : Build) (malloc : Nat → Bool) (st : State)
    (records : List FSEventRecord) : Option State :=
  match translateLoop B malloc st.handle records 0 [] with
  | none => none
  | some add_list => some (spliceAndWake st add_list)

/-! ## The macro `UV__FSEVENTS_WALK` (source lines 74-97) -/

/-- The loop `while (!QUEUE_EMPTY(&split_head))` of the macro (source lines 86-96) over the
members of `split_head`: the event at the head is removed, `block` runs only if the handle
is neither closing nor closed, and the event is freed. -/
def walkLoop (B : Build) (block : State → uv__fsevents_event_t → State) :
    List uv__fsevents_event_t → State → State
  | [], st => st
  | event :: split_head, st =>
    /- Invoke block code, but only if handle wasn't closed -/
    let st :=
      if st.handle.flags &&& (B.UV_CLOSING ||| B.UV_CLOSED) = 0 then block st event else st
    /- Free allocated data -/
    walkLoop B block split_head { st with freed := st.freed ++ [event] }

/-- The macro `UV__FSEVENTS_WALK(handle, block)`: under the mutex the whole queue
`cf_events` is split off at its head (position 0) into `split_head`, if it is not empty;
then the loop runs over `split_head`. -/
def UV__FSEVENTS_WALK (B : Build) (block : State → uv__fsevents_event_t → State)
    (st : State) : State :=
  /- QUEUE_INIT(&split_head) -/
  let split_head : List uv__fsevents_event_t := []
  let (cf_events, split_head) :=
    if st.handle.cf_events ≠ [] then QUEUE_SPLIT st.handle.cf_events 0
    else (st.handle.cf_events, split_head)
  walkLoop B block split_head { st with handle := { st.handle with cf_events := cf_events } }

/-! ## `uv__fsevents_close` (source lines 450-479) -/

/-- The function `uv__fsevents_close`; the second component is the returned `int`. -/
def uv__fsevents_close (B : Build) (st : State) : State × Int :=
  match st.handle.cf_eventstream with
  | none => (st, -(EINVAL : Int))
  | some stream =>
    /- Ensure that event stream was scheduled; stop emitting events; release stream -/
    let st := { st with
      handle := { st.handle with cf_eventstream := none },
      native := st.native ++
        [NativeOp.uv_sem_wait, NativeOp.FSEventStreamStop stream,
         NativeOp.FSEventStreamInvalidate stream, NativeOp.FSEventStreamRelease stream,
         NativeOp.uv_close_cf_cb] }
    /- Free data in queue -/
    let st := UV__FSEVENTS_WALK B (fun s _ => s) st
    let st := { st with
      handle := { st.handle with realpath := none, realpath_len := 0 },
      native := st.native ++
        [NativeOp.uv_mutex_destroy, NativeOp.uv_sem_destroy,
         NativeOp.free_realpath st.handle.realpath] }
    (st, 0)

/-! ## The consumer dispatch `uv__fsevents_cb` (source lines 100-114) -/

/-- The block that `uv__fsevents_cb` passes to the walk (source lines 106-107). -/
def dispatchBlock (cb : uv_fs_event_cb) (st : State) (event : uv__fsevents_event_t) : State :=
  if st.handle.event_watcher_fd ≠ -1 then
    let filename := if event.path ≠ [] then some event.path else none
    { st with
      handle := cb st.handle filename event.events 0,
      calls := st.calls ++
        [{ handle := st.handle, filename := filename, events := event.events, status := 0 }] }
  else st

/-- The function `uv__fsevents_cb`, `cb` being the user callback `handle->cb`. -/
def uv__fsevents_cb (B : Build) (cb : uv_fs_event_cb) (st : State) : State :=
  let st := UV__FSEVENTS_WALK B (dispatchBlock cb) st
  if st.handle.flags &&& (B.UV_CLOSING ||| B.UV_CLOSED) = 0 ∧
      st.handle.event_watcher_fd = -1 then
    (uv__fsevents_close B st).1
  else st

/-! ## Vocabulary of the specification -/

/-- A record is flagged as bookkeeping noise when its flags contain one of the bits
UserDropped, KernelDropped, EventIdsWrapped, HistoryDone, Mount, Unmount, RootChanged. -/
def isNoise (flags : Nat) : Bool :=
  flags &&& kFSEventStreamEventFlagUserDropped != 0 ||
  flags &&& kFSEventStreamEventFlagKernelDropped != 0 ||
  flags &&& kFSEventStreamEventFlagEventIdsWrapped != 0 ||
  flags &&& kFSEventStreamEventFlagHistoryDone != 0 ||
  flags &&& kFSEventStreamEventFlagMount != 0 ||
  flags &&& kFSEventStreamEventFlagUnmount != 0 ||
  flags &&& kFSEventStreamEventFlagRootChanged != 0

/-- The flags contain at least one of the bits ItemModified, ItemFinderInfoMod,
ItemInodeMetaMod, ItemChangeOwner, ItemXattrMod. -/
def hasModifiedBit (flags : Nat) : Bool :=
  flags &&& kFSEventStreamEventFlagItemModified != 0 ||
  flags &&& kFSEventStreamEventFlagItemFinderInfoMod != 0 ||
  flags &&& kFSEventStreamEventFlagItemInodeMetaMod != 0 ||
  flags &&& kFSEventStreamEventFlagItemChangeOwner != 0 ||
  flags &&& kFSEventStreamEventFlagItemXattrMod != 0

/-- The flags contain at least one of the bits ItemCreated, ItemRemoved, ItemRenamed. -/
def hasRenamedBit (flags : Nat) : Bool :=
  flags &&& kFSEventStreamEventFlagItemCreated != 0 ||
  flags &&& kFSEventStreamEventFlagItemRemoved != 0 ||
  flags &&& kFSEventStreamEventFlagItemRenamed != 0

/-- The event that the translator builds for a record that passes its filters, `none` for
a record that a filter discards. -/
def kept (B : Build) (handle : uv_fs_event_t) (r : FSEventRecord) :
    Option uv__fsevents_event_t :=
  match translate B handle r with
  | Verdict.emit event => some event
  | _ => none

/-- The state `st` with `q` as the queue of pending events. -/
def withPending (st : State) (q : List uv__fsevents_event_t) : State :=
  { st with handle := { st.handle with cf_events := q } }

/-- A handle as `uv__fsevents_init` leaves it when `realpath(3)` succeeds, watching
`/watched` without the recursive flag, and nothing done yet. -/
def watched : State :=
  { handle :=
      { flags := 0, event_watcher_fd := 3, cf_flags := 0,
        realpath := some "/watched".toList, realpath_len := 8,
        cf_eventstream := some 1, cf_events := [] },
    calls := [], freed := [], native := [] }

/-- A handle as `uv__fsevents_init` leaves it when `realpath(3)` succeeds, watching the
root directory `/`. -/
def watchedRoot : State :=
  { watched with
    handle := { watched.handle with realpath := some "/".toList, realpath_len := 1 } }

/-- A user callback that closes the handle: it sets `UV_CLOSING` and drops the stream. -/
def closingCallback : uv_fs_event_cb :=
  fun g _ _ _ => { g with flags := g.flags ||| build_10_7.UV_CLOSING, cf_eventstream := none }

theorem lor_eq_zero_iff (a b : Nat) : a ||| b = 0 ↔ a = 0 ∧ b = 0 := by
  constructor
  · intro h
    have key : ∀ i, a.testBit i = false ∧ b.testBit i = false := by
      intro i
      have hi := congrArg (fun n => Nat.testBit n i) h
      simpa using hi
    constructor
    · apply Nat.eq_of_testBit_eq
      intro i
      simp [(key i).1]
    · apply Nat.eq_of_testBit_eq
      intro i
      simp [(key i).2]
  · rintro ⟨rfl, rfl⟩
    rfl

theorem land_lor_eq_zero_iff (x a b : Nat) :
    x &&& (a ||| b) = 0 ↔ x &&& a = 0 ∧ x &&& b = 0 := by
  rw [Nat.and_or_distrib_left, lor_eq_zero_iff]

theorem isNoise_iff (flags : Nat) :
    isNoise flags = true ↔ flags &&& systemEventMask ≠ 0 := by
  unfold isNoise systemEventMask
  simp only [ne_eq, land_lor_eq_zero_iff, Bool.or_eq_true, bne_iff_ne]
  tauto

theorem isNoise_false_iff (flags : Nat) :
    isNoise flags = false ↔ flags &&& systemEventMask = 0 := by
  rw [← Bool.not_eq_true, isNoise_iff, not_not]

theorem hasModifiedBit_iff (flags : Nat) :
    hasModifiedBit flags = true ↔ flags &&& kFSEventsModified ≠ 0 := by
  unfold hasModifiedBit kFSEventsModified
  simp only [ne_eq, land_lor_eq_zero_iff, Bool.or_eq_true, bne_iff_ne]
  tauto

theorem hasRenamedBit_false_iff (flags : Nat) :
    hasRenamedBit flags = false ↔ flags &&& kFSEventsRenamed = 0 := by
  rw [← Bool.not_eq_true]
  unfold hasRenamedBit kFSEventsRenamed
  simp only [ne_eq, land_lor_eq_zero_iff, Bool.or_eq_true, bne_iff_ne]
  tauto

/-! ## Auxiliary facts: strings -/

theorem startsWith_iff (s p : List Char) : startsWith s p = true ↔ ∃ t, s = p ++ t := by
  induction p generalizing s with
  | nil => simp [startsWith]
  | cons d p ih =>
    cases s with
    | nil => simp [startsWith]
    | cons c s =>
      simp only [startsWith, Bool.and_eq_true, beq_iff_eq, ih, List.cons_append,
        List.cons.injEq]
      constructor
      · rintro ⟨rfl, t, rfl⟩
        exact ⟨t, rfl, rfl⟩
      · rintro ⟨t, rfl, rfl⟩
        exact ⟨rfl, t, rfl⟩

theorem strstr_eq_zero_iff (s p : List Char) :
    strstr s p = some 0 ↔ startsWith s p = true := by
  cases s with
  | nil => simp [strstr]
  | cons c t =>
    simp only [strstr]
    split
    · simp [*]
    · rename_i h
      simp only [h, iff_false]
      cases strstr t p <;> simp

theorem strchr_eq_none_iff (s : List Char) (ch : Char) : strchr s ch = none ↔ ch ∉ s := by
  induction s with
  | nil => simp [strchr]
  | cons c t ih =>
    simp only [strchr, List.mem_cons, not_or]
    split
    · rename_i h
      simp [h]
    · rename_i h
      simp only [Option.map_eq_none', ih]
      constructor
      · intro h2
        exact ⟨fun e => h e.symm, h2⟩
      · exact fun h2 => h2.2

/-! ## Auxiliary facts: the translator -/

/-- On a path that begins with the resolved path, the block removes the resolved path and
the one character after it, if there is one, and `len` stays the length of `path`. -/
theorem removeAbsolutePath_append (handle : uv_fs_event_t) (rp t : List Char)
    (hlen : handle.realpath_len = rp.length) :
    removeAbsolutePath handle rp (rp ++ t) (((rp ++ t).length : Nat) : Int) =
      some (t.drop 1, (((t.drop 1).length : Nat) : Int)) := by
  have h0 : strstr (rp ++ t) rp = some 0 :=
    (strstr_eq_zero_iff _ _).2 ((startsWith_iff _ _).2 ⟨t, rfl⟩)
  unfold removeAbsolutePath
  rw [if_pos h0, hlen]
  have h1 : ¬ (rp ++ t).length < rp.length := by simp
  rw [if_neg h1]
  simp only [List.drop_left]
  cases t with
  | nil => simp
  | cons c t =>
    simp only [ne_eq, reduceCtorEq, not_false_eq_true, if_true, List.drop_succ_cons,
      List.drop_zero, List.length_append, List.length_cons, Option.some.injEq,
      Prod.mk.injEq, true_and]
    push_cast
    omega

/-- On a path that does not begin with the resolved path the block changes nothing. -/
theorem removeAbsolutePath_other (handle : uv_fs_event_t) (rp path : List Char) (len : Int)
    (h : startsWith path rp = false) :
    removeAbsolutePath handle rp path len = some (path, len) := by
  have h0 : strstr path rp ≠ some 0 := by
    rw [Ne, strstr_eq_zero_iff, h]
    simp
  unfold removeAbsolutePath
  rw [if_neg h0]

/-- With a resolved path whose recorded length is its length, every turn of the loop has
defined behaviour. -/
theorem translate_defined (B : Build) (handle : uv_fs_event_t) (rp : List Char)
    (hrp : handle.realpath = some rp) (hlen : handle.realpath_len = rp.length)
    (r : FSEventRecord) : translate B handle r ≠ Verdict.undefined := by
  unfold translate
  split
  · simp
  · rw [hrp]
    simp only
    cases hs : startsWith r.path rp with
    | false =>
      rw [removeAbsolutePath_other handle rp r.path _ hs]
      simp only
      split
      · simp
      · split <;> simp
    | true =>
      obtain ⟨t, ht⟩ := (startsWith_iff _ _).1 hs
      rw [ht, removeAbsolutePath_append handle rp t hlen]
      simp only
      split
      · simp
      · split <;> simp

theorem translate_noise (B : Build) (handle : uv_fs_event_t) (r : FSEventRecord)
    (h : isNoise r.flags = true) : translate B handle r = Verdict.skip := by
  unfold translate
  rw [if_pos ((isNoise_iff _).1 h)]

theorem translateLoop_skip (B : Build) (malloc : Nat → Bool) (handle : uv_fs_event_t)
    (r : FSEventRecord) (h : translate B handle r = Verdict.skip)
    (pre post : List FSEventRecord) (calls : Nat) (add_list : List uv__fsevents_event_t) :
    translateLoop B malloc handle (pre ++ r :: post) calls add_list =
      translateLoop B malloc handle (pre ++ post) calls add_list := by
  induction pre generalizing calls add_list with
  | nil => simp [translateLoop, h]
  | cons a pre ih =>
    simp only [List.cons_append, translateLoop]
    cases translate B handle a with
    | undefined => rfl
    | skip => exact ih calls add_list
    | emit event =>
      simp only
      split
      · exact ih _ _
      · rfl

theorem translateLoop_filter (B : Build) (malloc : Nat → Bool) (handle : uv_fs_event_t)
    (records : List FSEventRecord) (calls : Nat) (add_list : List uv__fsevents_event_t) :
    translateLoop B malloc handle (records.filter (fun r => !isNoise r.flags)) calls add_list =
      translateLoop B malloc handle records calls add_list := by
  induction records generalizing calls add_list with
  | nil => rfl
  | cons a records ih =>
    cases hn : isNoise a.flags with
    | true =>
      have hs := translate_noise B handle a hn
      simp only [List.filter, hn, Bool.not_true, translateLoop, hs]
      exact ih calls add_list
    | false =>
      simp only [List.filter, hn, Bool.not_false, translateLoop]
      cases translate B handle a with
      | undefined => rfl
      | skip => exact ih calls add_list
      | emit event =>
        simp only
        split
        · exact ih _ _
        · rfl

/-- The loop appends to `add_list` the events of the records that pass the filters, in the
order of the records, up to the first call of `malloc` that fails. -/
theorem translateLoop_spec (B : Build) (malloc : Nat → Bool) (handle : uv_fs_event_t)
    (rp : List Char) (hrp : handle.realpath = some rp)
    (hlen : handle.realpath_len = rp.length)
    (records : List FSEventRecord) (calls : Nat) (add_list : List uv__fsevents_event_t) :
    ∃ n, translateLoop B malloc handle records calls add_list =
          some (add_list ++ (records.filterMap (kept B handle)).take n) ∧
        (∀ j, j < n → malloc (calls + j) = true) ∧
        (n < (records.filterMap (kept B handle)).length → malloc (calls + n) = false) ∧
        n ≤ (records.filterMap (kept B handle)).length := by
  induction records generalizing calls add_list with
  | nil =>
    exact ⟨0, by simp [translateLoop], by simp, by simp, by simp⟩
  | cons a records ih =>
    have hdef := translate_defined B handle rp hrp hlen a
    cases ht : translate B handle a with
    | undefined => exact absurd ht hdef
    | skip =>
      have hk : kept B handle a = none := by simp [kept, ht]
      obtain ⟨n, h1, h2, h3, h4⟩ := ih calls add_list
      refine ⟨n, ?_, h2, ?_, ?_⟩
      · simp only [translateLoop, ht, List.filterMap_cons, hk]
        exact h1
      · simpa only [List.filterMap_cons, hk] using h3
      · simpa only [List.filterMap_cons, hk] using h4
    | emit event =>
      have hk : kept B handle a = some event := by simp [kept, ht]
      cases hm : malloc calls with
      | false =>
        refine ⟨0, ?_, by simp, fun _ => by simpa using hm, by simp⟩
        simp [translateLoop, ht, hm]
      | true =>
        obtain ⟨n, h1, h2, h3, h4⟩ := ih (calls + 1) (add_list ++ [event])
        refine ⟨n + 1, ?_, ?_, ?_, ?_⟩
        · simp only [translateLoop, ht, hm, if_true, List.filterMap_cons, hk,
            List.take_succ_cons, QUEUE_INSERT_TAIL]
          rw [h1]
          simp
        · intro j hj
          cases j with
          | zero => simpa using hm
          | succ j =>
            have := h2 j (by omega)
            rwa [Nat.add_assoc, Nat.add_comm 1 j] at this
        · intro hn
          simp only [List.filterMap_cons, hk, List.length_cons] at hn
          have := h3 (by omega)
          rwa [Nat.add_assoc, Nat.add_comm 1 n] at this
        · simp only [List.filterMap_cons, hk, List.length_cons]
          omega

/-- When no call of `malloc` fails the loop appends one event for every record that passes
the filters. -/
theorem translateLoop_all (B : Build) (malloc : Nat → Bool) (handle : uv_fs_event_t)
    (rp : List Char) (hrp : handle.realpath = some rp)
    (hlen : handle.realpath_len = rp.length) (hm : ∀ k, malloc k = true)
    (records : List FSEventRecord) (calls : Nat) (add_list : List uv__fsevents_event_t) :
    translateLoop B malloc handle records calls add_list =
      some (add_list ++ records.filterMap (kept B handle)) := by
  obtain ⟨n, h1, _, h3, _⟩ :=
    translateLoop_spec B malloc handle rp hrp hlen records calls add_list
  have hn : (records.filterMap (kept B handle)).length ≤ n := by
    by_contra hc
    have := h3 (by omega)
    rw [hm] at this
    exact Bool.noConfusion this
  rw [h1, List.take_of_length_le hn]

theorem uv__fsevents_event_cb_eq (B : Build) (malloc : Nat → Bool) (st : State)
    (records : List FSEventRecord) :
    uv__fsevents_event_cb B malloc st records =
      (translateLoop B malloc st.handle records 0 []).map (spliceAndWake st) := by
  unfold uv__fsevents_event_cb
  cases translateLoop B malloc st.handle records 0 [] <;> rfl

/-- The loop only appends to `add_list`. -/
theorem translateLoop_extends (B : Build) (malloc : Nat → Bool) (handle : uv_fs_event_t)
    (records : List FSEventRecord) (calls : Nat) (add_list out : List uv__fsevents_event_t)
    (h : translateLoop B malloc handle records calls add_list = some out) :
    ∃ tail, out = add_list ++ tail := by
  induction records generalizing calls add_list with
  | nil =>
    simp only [translateLoop, Option.some.injEq] at h
    exact ⟨[], by simp [h]⟩
  | cons a records ih =>
    simp only [translateLoop] at h
    cases ht : translate B handle a with
    | undefined => simp [ht] at h
    | skip =>
      simp only [ht] at h
      exact ih calls add_list h
    | emit event =>
      simp only [ht] at h
      by_cases hm : malloc calls = true
      · simp only [hm, if_true, QUEUE_INSERT_TAIL] at h
        obtain ⟨tail, htail⟩ := ih _ _ h
        exact ⟨event :: tail, by simp [htail]⟩
      · simp only [hm, Bool.false_eq_true, if_false, Option.some.injEq] at h
        exact ⟨[], by simp [h]⟩

/-- The loop over the records `pre` either ends the run (no defined behaviour, or a failed
allocation), and then records behind `pre` change nothing, or it reaches the end of `pre`
with some count of allocations and some `add_list`, from which it goes on. -/
theorem translateLoop_append_cases (B : Build) (malloc : Nat → Bool) (handle : uv_fs_event_t)
    (pre : List FSEventRecord) (calls : Nat) (add_list : List uv__fsevents_event_t) :
    (∀ rest, translateLoop B malloc handle (pre ++ rest) calls add_list =
        translateLoop B malloc handle pre calls add_list) ∨
    (∃ calls1 add_list1,
      translateLoop B malloc handle pre calls add_list = some add_list1 ∧
      ∀ rest, translateLoop B malloc handle (pre ++ rest) calls add_list =
        translateLoop B malloc handle rest calls1 add_list1) := by
  induction pre generalizing calls add_list with
  | nil => exact Or.inr ⟨calls, add_list, rfl, fun _ => rfl⟩
  | cons a pre ih =>
    cases ht : translate B handle a with
    | undefined =>
      left
      intro rest
      simp [translateLoop, ht]
    | skip =>
      rcases ih calls add_list with h | ⟨c1, a1, h1, h2⟩
      · left
        intro rest
        simpa [translateLoop, ht] using h rest
      · right
        refine ⟨c1, a1, ?_, ?_⟩
        · simpa [translateLoop, ht] using h1
        · intro rest
          simpa [translateLoop, ht] using h2 rest
    | emit event =>
      by_cases hm : malloc calls = true
      · rcases ih (calls + 1) (QUEUE_INSERT_TAIL add_list event) with h | ⟨c1, a1, h1, h2⟩
        · left
          intro rest
          simpa [translateLoop, ht, hm] using h rest
        · right
          refine ⟨c1, a1, ?_, ?_⟩
          · simpa [translateLoop, ht, hm] using h1
          · intro rest
            simpa [translateLoop, ht, hm] using h2 rest
      · left
        intro rest
        simp [translateLoop, ht, hm]

/-- The kind of an event that a turn of the loop builds. -/
theorem translate_emit_events (B : Build) (handle : uv_fs_event_t) (r : FSEventRecord)
    (e : uv__fsevents_event_t) (h : translate B handle r = Verdict.emit e) :
    e.events =
      if hasModifiedBit r.flags = true ∧ hasRenamedBit r.flags = false then
        uv_fs_event.UV_CHANGE
      else uv_fs_event.UV_RENAME := by
  simp only [hasModifiedBit_iff, hasRenamedBit_false_iff]
  unfold translate at h
  dsimp only at h
  repeat' split at h
  all_goals first
    | exact Verdict.noConfusion h
    | (injection h with h; subst h; simp [*])

/-- A record about the watched path itself is skipped when per-item paths are reported. -/
theorem translate_root (B : Build) (handle : uv_fs_event_t) (rp : List Char) (flags : Nat)
    (h107 : B.MAC_OS_X_VERSION_10_7 = true) (hrp : handle.realpath = some rp)
    (hlen : handle.realpath_len = rp.length) :
    translate B handle ⟨rp, flags⟩ = Verdict.skip := by
  unfold translate
  split
  · rfl
  · rw [hrp]
    simp only
    have h := removeAbsolutePath_append handle rp [] hlen
    rw [List.append_nil] at h
    rw [h]
    simp [h107]

/-- A record about an immediate child of the watched path passes the filters, and its
event carries the name of the child. -/
theorem translate_child (B : Build) (handle : uv_fs_event_t) (rp name : List Char)
    (flags : Nat) (h107 : B.MAC_OS_X_VERSION_10_7 = true) (hrp : handle.realpath = some rp)
    (hlen : handle.realpath_len = rp.length) (hnoise : isNoise flags = false)
    (hne : name ≠ []) (hslash : '/' ∉ name) :
    ∃ e, e.path = name ∧ translate B handle ⟨rp ++ '/' :: name, flags⟩ = Verdict.emit e := by
  have hpos : strchr name '/' = none := (strchr_eq_none_iff _ _).2 hslash
  have hl : ((name.length : Nat) : Int) ≠ 0 := by
    have : name.length ≠ 0 := fun h => hne (List.length_eq_zero.1 h)
    exact_mod_cast this
  unfold translate
  rw [if_neg (by simpa using (isNoise_false_iff flags).1 hnoise), hrp]
  simp only
  rw [removeAbsolutePath_append handle rp ('/' :: name) hlen]
  simp only [List.drop_succ_cons, List.drop_zero, hpos, ne_eq, not_true_eq_false, false_and,
    and_false, if_false, h107, true_and, hl, if_true]
  exact ⟨_, rfl, rfl⟩

/-! ## Auxiliary facts: the walk, close and dispatch -/

/-- The split at the head moves the whole queue, so the walk runs the loop over the queue
as it was, on a handle whose queue is empty. -/
theorem UV__FSEVENTS_WALK_eq (B : Build) (block : State → uv__fsevents_event_t → State)
    (st : State) :
    UV__FSEVENTS_WALK B block st =
      walkLoop B block st.handle.cf_events (withPending st []) := by
  unfold UV__FSEVENTS_WALK withPending
  by_cases h : st.handle.cf_events = []
  · simp [h]
  · simp [h, QUEUE_SPLIT]

theorem walkLoop_append (B : Build) (block : State → uv__fsevents_event_t → State)
    (pre post : List uv__fsevents_event_t) (st : State) :
    walkLoop B block (pre ++ post) st = walkLoop B block post (walkLoop B block pre st) := by
  induction pre generalizing st with
  | nil => rfl
  | cons e pre ih =>
    rw [List.cons_append]
    simp only [walkLoop]
    exact ih _

/-- Once the handle is closing or closed the walk only frees. -/
theorem walkLoop_inactive (B : Build) (block : State → uv__fsevents_event_t → State)
    (l : List uv__fsevents_event_t) (st : State)
    (h : st.handle.flags &&& (B.UV_CLOSING ||| B.UV_CLOSED) ≠ 0) :
    walkLoop B block l st = { st with freed := st.freed ++ l } := by
  induction l generalizing st with
  | nil => simp [walkLoop]
  | cons e l ih =>
    simp only [walkLoop, if_neg h]
    rw [ih { st with freed := st.freed ++ [e] } h]
    simp

/-- The walk with the empty block of `uv__fsevents_close` only frees. -/
theorem walkLoop_nop (B : Build) (l : List uv__fsevents_event_t) (st : State) :
    walkLoop B (fun s _ => s) l st = { st with freed := st.freed ++ l } := by
  induction l generalizing st with
  | nil => simp [walkLoop]
  | cons e l ih =>
    simp only [walkLoop, ite_self]
    rw [ih]
    simp

theorem walkLoop_freed (B : Build) (block : State → uv__fsevents_event_t → State)
    (hblock : ∀ s e, (block s e).freed = s.freed)
    (l : List uv__fsevents_event_t) (st : State) :
    (walkLoop B block l st).freed = st.freed ++ l := by
  induction l generalizing st with
  | nil => simp [walkLoop]
  | cons e l ih =>
    simp only [walkLoop]
    rw [ih]
    split <;> simp [hblock]

theorem dispatchBlock_freed (cb : uv_fs_event_cb) (s : State) (e : uv__fsevents_event_t) :
    (dispatchBlock cb s e).freed = s.freed := by
  unfold dispatchBlock
  split <;> rfl

theorem dispatchBlock_cf_events (cb : uv_fs_event_cb)
    (hframe : ∀ g p k s, (cb g p k s).cf_events = g.cf_events)
    (s : State) (e : uv__fsevents_event_t) :
    (dispatchBlock cb s e).handle.cf_events = s.handle.cf_events := by
  unfold dispatchBlock
  split
  · exact hframe _ _ _ _
  · rfl

theorem walkLoop_dispatch_cf_events (B : Build) (cb : uv_fs_event_cb)
    (hframe : ∀ g p k s, (cb g p k s).cf_events = g.cf_events)
    (l : List uv__fsevents_event_t) (st : State) :
    (walkLoop B (dispatchBlock cb) l st).handle.cf_events = st.handle.cf_events := by
  induction l generalizing st with
  | nil => simp [walkLoop]
  | cons e l ih =>
    simp only [walkLoop]
    rw [ih]
    split
    · exact dispatchBlock_cf_events cb hframe st e
    · rfl

/-- One turn of the walk of `uv__fsevents_cb` invokes the callback at most once, and only
with a handle that is neither closing nor closed. -/
theorem dispatch_turn_calls (B : Build) (cb : uv_fs_event_cb) (st : State)
    (e : uv__fsevents_event_t) :
    ∃ d, (if st.handle.flags &&& (B.UV_CLOSING ||| B.UV_CLOSED) = 0 then
            dispatchBlock cb st e else st).calls = st.calls ++ d ∧
      ∀ c ∈ d, c.handle.flags &&& (B.UV_CLOSING ||| B.UV_CLOSED) = 0 := by
  by_cases hact : st.handle.flags &&& (B.UV_CLOSING ||| B.UV_CLOSED) = 0
  · rw [if_pos hact]
    unfold dispatchBlock
    by_cases hfd : st.handle.event_watcher_fd ≠ -1
    · rw [if_pos hfd]
      refine ⟨[{ handle := st.handle, filename := if e.path ≠ [] then some e.path else none,
                 events := e.events, status := 0 }], rfl, ?_⟩
      intro c hc
      rw [List.mem_singleton.1 hc]
      exact hact
    · rw [if_neg hfd]
      exact ⟨[], by simp, by simp⟩
  · rw [if_neg hact]
    exact ⟨[], by simp, by simp⟩

/-- Every invocation made by the walk of `uv__fsevents_cb` enters the callback with a
handle that is neither closing nor closed. -/
theorem walkLoop_dispatch_calls (B : Build) (cb : uv_fs_event_cb)
    (l : List uv__fsevents_event_t) (st : State) :
    ∃ new, (walkLoop B (dispatchBlock cb) l st).calls = st.calls ++ new ∧
      ∀ c ∈ new, c.handle.flags &&& (B.UV_CLOSING ||| B.UV_CLOSED) = 0 := by
  induction l generalizing st with
  | nil => exact ⟨[], by simp [walkLoop], by simp⟩
  | cons e l ih =>
    simp only [walkLoop]
    obtain ⟨d, hd1, hd2⟩ := dispatch_turn_calls B cb st e
    obtain ⟨new, h1, h2⟩ := ih
      { (if st.handle.flags &&& (B.UV_CLOSING ||| B.UV_CLOSED) = 0 then
          dispatchBlock cb st e else st) with
        freed := (if st.handle.flags &&& (B.UV_CLOSING ||| B.UV_CLOSED) = 0 then
          dispatchBlock cb st e else st).freed ++ [e] }
    refine ⟨d ++ new, ?_, ?_⟩
    · rw [h1]
      simp only [hd1, List.append_assoc]
    · intro c hc
      rcases List.mem_append.1 hc with hc | hc
      · exact hd2 c hc
      · exact h2 c hc

theorem uv__fsevents_close_none (B : Build) (st : State)
    (h : st.handle.cf_eventstream = none) :
    uv__fsevents_close B st = (st, -(EINVAL : Int)) := by
  unfold uv__fsevents_close
  rw [h]

theorem uv__fsevents_close_some (B : Build) (st : State) (stream : Nat)
    (h : st.handle.cf_eventstream = some stream) :
    uv__fsevents_close B st =
      ({ handle := { st.handle with
            cf_eventstream := none, cf_events := [], realpath := none, realpath_len := 0 },
         calls := st.calls,
         freed := st.freed ++ st.handle.cf_events,
         native := st.native ++
           [NativeOp.uv_sem_wait, NativeOp.FSEventStreamStop stream,
            NativeOp.FSEventStreamInvalidate stream, NativeOp.FSEventStreamRelease stream,
            NativeOp.uv_close_cf_cb] ++
           [NativeOp.uv_mutex_destroy, NativeOp.uv_sem_destroy,
            NativeOp.free_realpath st.handle.realpath] }, 0) := by
  unfold uv__fsevents_close
  rw [h]
  simp only [UV__FSEVENTS_WALK_eq, walkLoop_nop, withPending]

/-- What `uv__fsevents_close` leaves untouched, and what it does on an empty queue. -/
theorem uv__fsevents_close_frame (B : Build) (st : State) :
    (uv__fsevents_close B st).1.calls = st.calls ∧
      (uv__fsevents_close B st).1.handle.flags = st.handle.flags ∧
      (st.handle.cf_events = [] → (uv__fsevents_close B st).1.freed = st.freed) ∧
      (st.handle.cf_events = [] → (uv__fsevents_close B st).1.handle.cf_events = []) := by
  cases h : st.handle.cf_eventstream with
  | none =>
    rw [uv__fsevents_close_none B st h]
    exact ⟨rfl, rfl, fun _ => rfl, fun h => h⟩
  | some stream =>
    rw [uv__fsevents_close_some B st stream h]
    exact ⟨rfl, rfl, fun h => by simp [h], fun _ => rfl⟩

/-! ## The claims about the event translator -/

/-- C1, evaluated at the input where the code departs from it: the watcher is not
recursive, the record is not bookkeeping noise and lies at `/watched/a/b/c`, three levels
below the watched path, so its relative path `a/b/c` contains a separator. The code does
not discard it: the first separator is at offset 1, which the test `pos != path + 1`
exempts, and the event `a/b/c` is appended to the pending events. -/
theorem C1_deeper_record_is_not_discarded :
    watched.handle.cf_flags &&& build_10_7.UV_FS_EVENT_RECURSIVE = 0 ∧
    isNoise kFSEventStreamEventFlagItemModified = false ∧
    strchr "a/b/c".toList '/' = some 1 ∧
    uv__fsevents_event_cb build_10_7 (fun _ => true) watched
        [⟨"/watched/a/b/c".toList, kFSEventStreamEventFlagItemModified⟩] =
      some { watched with
        handle := { watched.handle with
          cf_events := [⟨uv_fs_event.UV_CHANGE, "a/b/c".toList⟩] },
        native := [NativeOp.uv_async_send] } := by
  decide

/-- C2: on a build that defines `MAC_OS_X_VERSION_10_7`, with every allocation succeeding,
for a watcher that is not recursive and a record that is not bookkeeping noise and whose
path is the resolved path, a `/`, and a non-empty name without `/`, the translator appends
exactly one event for that record, and the relative path of that event is the name:
delivered alone, the record leaves the pending events equal to their prior content
followed by that one event; in a delivery `pre ++ record :: post` the pending events
afterwards are the prior content, the events that the delivery `pre` appends, that one
event, and the events that the delivery `post` appends. (The proof does not use that the
watcher is not recursive: a name without `/` passes the subdirectory test for either
setting.) -/
theorem C2_immediate_child_yields_one_event (B : Build) (malloc : Nat → Bool) (st : State)
    (resolvedPath name : List Char) (flags : Nat) (pre post : List FSEventRecord)
    (h107 : B.MAC_OS_X_VERSION_10_7 = true)
    (hmalloc : ∀ k, malloc k = true)
    (hrp : st.handle.realpath = some resolvedPath)
    (hlen : st.handle.realpath_len = resolvedPath.length)
    (_hrec : st.handle.cf_flags &&& B.UV_FS_EVENT_RECURSIVE = 0)
    (hnoise : isNoise flags = false)
    (hne : name ≠ []) (hslash : '/' ∉ name) :
    ∃ e evsPre evsPost stAlone stPre stPost st1,
      e.path = name ∧
      uv__fsevents_event_cb B malloc st [⟨resolvedPath ++ '/' :: name, flags⟩] =
        some stAlone ∧
      stAlone.handle.cf_events = st.handle.cf_events ++ [e] ∧
      uv__fsevents_event_cb B malloc st pre = some stPre ∧
      stPre.handle.cf_events = st.handle.cf_events ++ evsPre ∧
      uv__fsevents_event_cb B malloc st post = some stPost ∧
      stPost.handle.cf_events = st.handle.cf_events ++ evsPost ∧
      uv__fsevents_event_cb B malloc st (pre ++ ⟨resolvedPath ++ '/' :: name, flags⟩ :: post) =
        some st1 ∧
      st1.handle.cf_events = st.handle.cf_events ++ evsPre ++ e :: evsPost := by
  obtain ⟨e, he, ht⟩ :=
    translate_child B st.handle resolvedPath name flags h107 hrp hlen hnoise hne hslash
  have hk : kept B st.handle ⟨resolvedPath ++ '/' :: name, flags⟩ = some e := by
    simp [kept, ht]
  have hrun : ∀ records, uv__fsevents_event_cb B malloc st records =
      some (spliceAndWake st (records.filterMap (kept B st.handle))) := by
    intro records
    rw [uv__fsevents_event_cb_eq,
      translateLoop_all B malloc st.handle resolvedPath hrp hlen hmalloc]
    rfl
  refine ⟨e, pre.filterMap (kept B st.handle), post.filterMap (kept B st.handle),
    _, _, _, _, he, hrun _, ?_, hrun _, ?_, hrun _, ?_, hrun _, ?_⟩
  · simp [spliceAndWake, QUEUE_ADD, hk]
  · simp [spliceAndWake, QUEUE_ADD]
  · simp [spliceAndWake, QUEUE_ADD]
  · simp [spliceAndWake, QUEUE_ADD, List.filterMap_append, hk]

/-- C2 at a concrete input: the record `/watched/a` of a watcher of `/watched`, between a
record of bookkeeping noise and the record `/watched/c`. -/
theorem C2_immediate_child_yields_one_event_witness :
    ∃ e evsPre evsPost stAlone stPre stPost st1,
      e.path = "a".toList ∧
      uv__fsevents_event_cb build_10_7 (fun _ => true) watched
        [⟨"/watched".toList ++ '/' :: "a".toList, kFSEventStreamEventFlagItemModified⟩] =
        some stAlone ∧
      stAlone.handle.cf_events = watched.handle.cf_events ++ [e] ∧
      uv__fsevents_event_cb build_10_7 (fun _ => true) watched
        [⟨"/watched/b".toList, kFSEventStreamEventFlagMount⟩] = some stPre ∧
      stPre.handle.cf_events = watched.handle.cf_events ++ evsPre ∧
      uv__fsevents_event_cb build_10_7 (fun _ => true) watched
        [⟨"/watched/c".toList, kFSEventStreamEventFlagItemCreated⟩] = some stPost ∧
      stPost.handle.cf_events = watched.handle.cf_events ++ evsPost ∧
      uv__fsevents_event_cb build_10_7 (fun _ => true) watched
        ([⟨"/watched/b".toList, kFSEventStreamEventFlagMount⟩] ++
          ⟨"/watched".toList ++ '/' :: "a".toList, kFSEventStreamEventFlagItemModified⟩ ::
          [⟨"/watched/c".toList, kFSEventStreamEventFlagItemCreated⟩]) = some st1 ∧
      st1.handle.cf_events = watched.handle.cf_events ++ evsPre ++ e :: evsPost :=
  C2_immediate_child_yields_one_event build_10_7 (fun _ => true) watched "/watched".toList
    "a".toList kFSEventStreamEventFlagItemModified
    [⟨"/watched/b".toList, kFSEventStreamEventFlagMount⟩]
    [⟨"/watched/c".toList, kFSEventStreamEventFlagItemCreated⟩]
    rfl (fun _ => rfl) rfl rfl (by decide) (by decide) (by decide) (by decide)

/-- C3: for every record that the translator turns into an event, at any position of a
delivery: when the delivery `pre` leaves the queue `q` and the delivery `pre ++ [r]` leaves
`q ++ [e]`, so that `e` is the event made of `r`, the kind of `e` is `UV_CHANGE` exactly
when the flags of `r` contain one of the bits ItemModified, ItemFinderInfoMod,
ItemInodeMetaMod, ItemChangeOwner, ItemXattrMod and none of the bits ItemCreated,
ItemRemoved, ItemRenamed, and it is `UV_RENAME` in every other case; a record flagged only
ItemModified gives `UV_CHANGE`, a record flagged ItemRemoved gives `UV_RENAME` whatever its
other flags; and in every delivery `pre ++ r :: post` that same event `e` stands in the
queue right behind `q`, whatever records follow. -/
theorem C3_classification (B : Build) (malloc : Nat → Bool) (st stPre stR : State)
    (pre : List FSEventRecord) (r : FSEventRecord) (e : uv__fsevents_event_t)
    (hpre : uv__fsevents_event_cb B malloc st pre = some stPre)
    (hrun : uv__fsevents_event_cb B malloc st (pre ++ [r]) = some stR)
    (hq : stR.handle.cf_events = stPre.handle.cf_events ++ [e]) :
    (e.events = uv_fs_event.UV_CHANGE ↔
        hasModifiedBit r.flags = true ∧ hasRenamedBit r.flags = false) ∧
    (e.events = uv_fs_event.UV_RENAME ↔
        ¬ (hasModifiedBit r.flags = true ∧ hasRenamedBit r.flags = false)) ∧
    (r.flags = kFSEventStreamEventFlagItemModified → e.events = uv_fs_event.UV_CHANGE) ∧
    (r.flags &&& kFSEventStreamEventFlagItemRemoved ≠ 0 →
        e.events = uv_fs_event.UV_RENAME) ∧
    (∀ (post : List FSEventRecord) (st1 : State),
      uv__fsevents_event_cb B malloc st (pre ++ r :: post) = some st1 →
      ∃ tail, st1.handle.cf_events = stPre.handle.cf_events ++ e :: tail) := by
  rw [uv__fsevents_event_cb_eq] at hpre hrun
  have hmain : translate B st.handle r = Verdict.emit e ∧
      ∀ (post : List FSEventRecord) (st1 : State),
        uv__fsevents_event_cb B malloc st (pre ++ r :: post) = some st1 →
        ∃ tail, st1.handle.cf_events = stPre.handle.cf_events ++ e :: tail := by
    rcases translateLoop_append_cases B malloc st.handle pre 0 [] with h | ⟨c1, a1, h1, h2⟩
    · exfalso
      rw [h [r], hpre] at hrun
      rw [Option.some.inj hrun] at hq
      simp at hq
    · rw [h1] at hpre
      simp only [Option.map_some', Option.some.injEq] at hpre
      rw [h2 [r]] at hrun
      simp only [translateLoop] at hrun
      have hqPre : stPre.handle.cf_events = st.handle.cf_events ++ a1 := by
        rw [← hpre]
        rfl
      cases ht : translate B st.handle r with
      | undefined => simp [ht] at hrun
      | skip =>
        exfalso
        simp only [ht, Option.map_some', Option.some.injEq] at hrun
        rw [← hrun, hqPre] at hq
        simp [spliceAndWake, QUEUE_ADD] at hq
      | emit ev =>
        simp only [ht] at hrun
        by_cases hm : malloc c1 = true
        · simp only [hm, if_true, QUEUE_INSERT_TAIL, Option.map_some',
            Option.some.injEq] at hrun
          rw [← hrun, hqPre] at hq
          simp only [spliceAndWake, QUEUE_ADD, List.append_assoc, List.append_cancel_left_eq,
            List.cons.injEq, and_true] at hq
          subst hq
          refine ⟨rfl, ?_⟩
          intro post st1 h1run
          rw [uv__fsevents_event_cb_eq, h2 (r :: post)] at h1run
          simp only [translateLoop, ht, hm, if_true, QUEUE_INSERT_TAIL] at h1run
          cases hl : translateLoop B malloc st.handle post (c1 + 1) (a1 ++ [ev]) with
          | none => simp [hl] at h1run
          | some out =>
            obtain ⟨tail, htail⟩ := translateLoop_extends B malloc st.handle post _ _ out hl
            rw [hl] at h1run
            simp only [Option.map_some', Option.some.injEq] at h1run
            refine ⟨tail, ?_⟩
            rw [← h1run, hqPre, htail]
            simp [spliceAndWake, QUEUE_ADD]
        · exfalso
          simp only [hm, Bool.false_eq_true, if_false, Option.map_some',
            Option.some.injEq] at hrun
          rw [← hrun, hqPre] at hq
          simp [spliceAndWake, QUEUE_ADD] at hq
  obtain ⟨hemit, hpost⟩ := hmain
  have hev := translate_emit_events B st.handle r e hemit
  have hiff : e.events = uv_fs_event.UV_CHANGE ↔
      hasModifiedBit r.flags = true ∧ hasRenamedBit r.flags = false := by
    rw [hev]
    by_cases hc : hasModifiedBit r.flags = true ∧ hasRenamedBit r.flags = false
    · simp [hc]
    · rw [if_neg hc]
      simp [hc]
  have hren : e.events = uv_fs_event.UV_RENAME ↔
      ¬ (hasModifiedBit r.flags = true ∧ hasRenamedBit r.flags = false) := by
    rw [hev]
    by_cases hc : hasModifiedBit r.flags = true ∧ hasRenamedBit r.flags = false
    · rw [if_pos hc]
      simp [hc]
    · rw [if_neg hc]
      simp [hc]
  refine ⟨hiff, hren, ?_, ?_, hpost⟩
  · intro hf
    rw [hiff, hf]
    decide
  · intro hf
    rw [hren]
    rintro ⟨_, h2⟩
    have h3 := (hasRenamedBit_false_iff r.flags).1 h2
    unfold kFSEventsRenamed at h3
    rw [land_lor_eq_zero_iff, land_lor_eq_zero_iff] at h3
    exact hf h3.1.2

/-- C3 at a concrete input: in a delivery to a watcher of `/watched`, the record
`/watched/a`, flagged ItemModified and ItemRemoved, comes second, behind a record flagged
ItemModified only; its event has the kind `UV_RENAME`. -/
theorem C3_classification_witness :
    (uv_fs_event.UV_RENAME = uv_fs_event.UV_CHANGE ↔
        hasModifiedBit (kFSEventStreamEventFlagItemModified |||
          kFSEventStreamEventFlagItemRemoved) = true ∧
        hasRenamedBit (kFSEventStreamEventFlagItemModified |||
          kFSEventStreamEventFlagItemRemoved) = false) ∧
    (uv_fs_event.UV_RENAME = uv_fs_event.UV_RENAME ↔
        ¬ (hasModifiedBit (kFSEventStreamEventFlagItemModified |||
            kFSEventStreamEventFlagItemRemoved) = true ∧
          hasRenamedBit (kFSEventStreamEventFlagItemModified |||
            kFSEventStreamEventFlagItemRemoved) = false)) ∧
    (kFSEventStreamEventFlagItemModified ||| kFSEventStreamEventFlagItemRemoved =
        kFSEventStreamEventFlagItemModified →
      uv_fs_event.UV_RENAME = uv_fs_event.UV_CHANGE) ∧
    ((kFSEventStreamEventFlagItemModified ||| kFSEventStreamEventFlagItemRemoved) &&&
        kFSEventStreamEventFlagItemRemoved ≠ 0 →
      uv_fs_event.UV_RENAME = uv_fs_event.UV_RENAME) ∧
    (∀ (post : List FSEventRecord) (st1 : State),
      uv__fsevents_event_cb build_10_7 (fun _ => true) watched
        ([⟨"/watched/x".toList, kFSEventStreamEventFlagItemModified⟩] ++
          ⟨"/watched/a".toList,
            kFSEventStreamEventFlagItemModified ||| kFSEventStreamEventFlagItemRemoved⟩ ::
          post) = some st1 →
      ∃ tail, st1.handle.cf_events =
        (spliceAndWake watched [⟨uv_fs_event.UV_CHANGE, "x".toList⟩]).handle.cf_events ++
          ⟨uv_fs_event.UV_RENAME, "a".toList⟩ :: tail) :=
  C3_classification build_10_7 (fun _ => true) watched
    (spliceAndWake watched [⟨uv_fs_event.UV_CHANGE, "x".toList⟩])
    (spliceAndWake watched [⟨uv_fs_event.UV_CHANGE, "x".toList⟩,
      ⟨uv_fs_event.UV_RENAME, "a".toList⟩])
    [⟨"/watched/x".toList, kFSEventStreamEventFlagItemModified⟩]
    ⟨"/watched/a".toList,
      kFSEventStreamEventFlagItemModified ||| kFSEventStreamEventFlagItemRemoved⟩
    ⟨uv_fs_event.UV_RENAME, "a".toList⟩ (by decide) (by decide) (by decide)

/-- C8 fails on the code: on the build that defines `MAC_OS_X_VERSION_10_7`, the record
whose path is the watched path `/watched` itself, flagged ItemModified and no bookkeeping
noise, is not kept. The pending events stay empty, for the watcher that is not recursive
and for the recursive one. -/
theorem C8_root_record_counterexample :
    isNoise kFSEventStreamEventFlagItemModified = false ∧
    uv__fsevents_event_cb build_10_7 (fun _ => true) watched
        [⟨"/watched".toList, kFSEventStreamEventFlagItemModified⟩] =
      some { watched with native := [NativeOp.uv_async_send] } ∧
    uv__fsevents_event_cb build_10_7 (fun _ => true)
        { watched with handle := { watched.handle with cf_flags := 4 } }
        [⟨"/watched".toList, kFSEventStreamEventFlagItemModified⟩] =
      some { watched with
        handle := { watched.handle with cf_flags := 4 },
        native := [NativeOp.uv_async_send] } := by
  decide

/-- C8 as amended: on a build that defines `MAC_OS_X_VERSION_10_7`, a record whose path is
the resolved watched path itself is never kept, whether or not the watcher is recursive
(and whatever its flags are): delivered alone it leaves the pending events as they were,
and in a delivery it changes nothing of what the translator does with the other records. -/
theorem C8_root_record_is_discarded (B : Build) (malloc : Nat → Bool) (st : State)
    (resolvedPath : List Char) (flags : Nat)
    (h107 : B.MAC_OS_X_VERSION_10_7 = true)
    (hrp : st.handle.realpath = some resolvedPath)
    (hlen : st.handle.realpath_len = resolvedPath.length) :
    (∃ st1, uv__fsevents_event_cb B malloc st [⟨resolvedPath, flags⟩] = some st1 ∧
      st1.handle.cf_events = st.handle.cf_events) ∧
    ∀ pre post : List FSEventRecord,
      uv__fsevents_event_cb B malloc st (pre ++ ⟨resolvedPath, flags⟩ :: post) =
        uv__fsevents_event_cb B malloc st (pre ++ post) := by
  have hs := translate_root B st.handle resolvedPath flags h107 hrp hlen
  constructor
  · refine ⟨spliceAndWake st [], ?_, ?_⟩
    · rw [uv__fsevents_event_cb_eq]
      simp [translateLoop, hs]
    · simp [spliceAndWake, QUEUE_ADD]
  · intro pre post
    rw [uv__fsevents_event_cb_eq, uv__fsevents_event_cb_eq,
      translateLoop_skip B malloc st.handle _ hs]

/-- C8 as amended, at a concrete input: the record `/watched` of a watcher of `/watched`. -/
theorem C8_root_record_is_discarded_witness :
    (∃ st1, uv__fsevents_event_cb build_10_7 (fun _ => true) watched
        [⟨"/watched".toList, kFSEventStreamEventFlagItemModified⟩] = some st1 ∧
      st1.handle.cf_events = watched.handle.cf_events) ∧
    ∀ pre post : List FSEventRecord,
      uv__fsevents_event_cb build_10_7 (fun _ => true) watched
          (pre ++ ⟨"/watched".toList, kFSEventStreamEventFlagItemModified⟩ :: post) =
        uv__fsevents_event_cb build_10_7 (fun _ => true) watched (pre ++ post) :=
  C8_root_record_is_discarded build_10_7 (fun _ => true) watched "/watched".toList
    kFSEventStreamEventFlagItemModified rfl rfl rfl

/-- C9, evaluated at inputs where the code departs from it: the character that follows
the resolved path is removed whatever it is. For a watcher of the root directory `/` the
record `/etc` starts with the resolved path; the code removes the `/` and then the `e`,
and the event carries the relative path `tc`. For a watcher of `/watched` the record
`/watchedxy` gives the relative path `y`. -/
theorem C9_character_after_the_resolved_path_is_removed :
    watchedRoot.handle.realpath = some "/".toList ∧
    watchedRoot.handle.realpath_len = "/".toList.length ∧
    removeAbsolutePath watchedRoot.handle "/".toList "/etc".toList 4 =
      some ("tc".toList, 2) ∧
    uv__fsevents_event_cb build_10_7 (fun _ => true) watchedRoot
        [⟨"/etc".toList, kFSEventStreamEventFlagItemCreated⟩] =
      some { watchedRoot with
        handle := { watchedRoot.handle with
          cf_events := [⟨uv_fs_event.UV_RENAME, "tc".toList⟩] },
        native := [NativeOp.uv_async_send] } ∧
    removeAbsolutePath watched.handle "/watched".toList "/watchedxy".toList 10 =
      some ("y".toList, 1) := by
  decide

/-- C10: a record flagged with one of the bits UserDropped, KernelDropped, EventIdsWrapped,
HistoryDone, Mount, Unmount, RootChanged never becomes an event, whatever its other flags,
its path, the handle and the build are: delivered alone it leaves the pending events as
they were, and anywhere in a delivery it can be removed without changing the result. The
translator does to a delivery exactly what it does to the delivery without these
records. -/
theorem C10_noise_records_never_become_events (B : Build) (malloc : Nat → Bool) (st : State)
    (records : List FSEventRecord) :
    uv__fsevents_event_cb B malloc st records =
        uv__fsevents_event_cb B malloc st (records.filter (fun r => !isNoise r.flags)) ∧
    (∀ (r : FSEventRecord) (pre post : List FSEventRecord), isNoise r.flags = true →
      uv__fsevents_event_cb B malloc st (pre ++ r :: post) =
        uv__fsevents_event_cb B malloc st (pre ++ post)) ∧
    (∀ r : FSEventRecord, isNoise r.flags = true →
      ∃ st1, uv__fsevents_event_cb B malloc st [r] = some st1 ∧
        st1.handle.cf_events = st.handle.cf_events) := by
  refine ⟨?_, ?_, ?_⟩
  · rw [uv__fsevents_event_cb_eq, uv__fsevents_event_cb_eq, translateLoop_filter]
  · intro r pre post hn
    rw [uv__fsevents_event_cb_eq, uv__fsevents_event_cb_eq,
      translateLoop_skip B malloc st.handle r (translate_noise B st.handle r hn)]
  · intro r hn
    refine ⟨spliceAndWake st [], ?_, ?_⟩
    · rw [uv__fsevents_event_cb_eq]
      simp [translateLoop, translate_noise B st.handle r hn]
    · simp [spliceAndWake, QUEUE_ADD]

/-- C10 at a concrete input: a record flagged ItemModified and RootChanged, alone and
between two records of a delivery. -/
theorem C10_noise_records_never_become_events_witness :
    isNoise (kFSEventStreamEventFlagItemModified ||| kFSEventStreamEventFlagRootChanged) =
      true ∧
    uv__fsevents_event_cb build_10_7 (fun _ => true) watched
        ([⟨"/watched/a".toList, kFSEventStreamEventFlagItemModified⟩] ++
          ⟨"/watched/b".toList,
            kFSEventStreamEventFlagItemModified ||| kFSEventStreamEventFlagRootChanged⟩ ::
          [⟨"/watched/c".toList, kFSEventStreamEventFlagItemCreated⟩]) =
      uv__fsevents_event_cb build_10_7 (fun _ => true) watched
        ([⟨"/watched/a".toList, kFSEventStreamEventFlagItemModified⟩] ++
          [⟨"/watched/c".toList, kFSEventStreamEventFlagItemCreated⟩]) ∧
    ∃ st1, uv__fsevents_event_cb build_10_7 (fun _ => true) watched
        [⟨"/watched/b".toList,
          kFSEventStreamEventFlagItemModified ||| kFSEventStreamEventFlagRootChanged⟩] =
        some st1 ∧
      st1.handle.cf_events = watched.handle.cf_events :=
  ⟨by decide,
    (C10_noise_records_never_become_events build_10_7 (fun _ => true) watched []).2.1
      ⟨"/watched/b".toList,
        kFSEventStreamEventFlagItemModified ||| kFSEventStreamEventFlagRootChanged⟩
      [⟨"/watched/a".toList, kFSEventStreamEventFlagItemModified⟩]
      [⟨"/watched/c".toList, kFSEventStreamEventFlagItemCreated⟩] (by decide),
    (C10_noise_records_never_become_events build_10_7 (fun _ => true) watched []).2.2
      ⟨"/watched/b".toList,
        kFSEventStreamEventFlagItemModified ||| kFSEventStreamEventFlagRootChanged⟩
      (by decide)⟩

/-! ## Auxiliary facts: `uv__fsevents_cb` in terms of its walk -/

/-- The state after the walk of `uv__fsevents_cb`, before the test that may close. -/
theorem uv__fsevents_cb_eq (B : Build) (cb : uv_fs_event_cb) (st : State) :
    uv__fsevents_cb B cb st =
      if (walkLoop B (dispatchBlock cb) st.handle.cf_events (withPending st [])).handle.flags
            &&& (B.UV_CLOSING ||| B.UV_CLOSED) = 0 ∧
          (walkLoop B (dispatchBlock cb) st.handle.cf_events
            (withPending st [])).handle.event_watcher_fd = -1 then
        (uv__fsevents_close B
          (walkLoop B (dispatchBlock cb) st.handle.cf_events (withPending st []))).1
      else walkLoop B (dispatchBlock cb) st.handle.cf_events (withPending st []) := by
  unfold uv__fsevents_cb
  simp only [UV__FSEVENTS_WALK_eq]

theorem uv__fsevents_cb_calls (B : Build) (cb : uv_fs_event_cb) (st : State) :
    (uv__fsevents_cb B cb st).calls =
      (walkLoop B (dispatchBlock cb) st.handle.cf_events (withPending st [])).calls := by
  rw [uv__fsevents_cb_eq]
  split
  · exact (uv__fsevents_close_frame B _).1
  · rfl

theorem uv__fsevents_cb_flags (B : Build) (cb : uv_fs_event_cb) (st : State) :
    (uv__fsevents_cb B cb st).handle.flags =
      (walkLoop B (dispatchBlock cb) st.handle.cf_events (withPending st [])).handle.flags := by
  rw [uv__fsevents_cb_eq]
  split
  · exact (uv__fsevents_close_frame B _).2.1
  · rfl

/-! ## The claims about dispatch and close -/

/-- C4: in a run of `uv__fsevents_cb` over any queue and with any user callback, (1) every
invocation of the callback enters it with a handle that is neither closing nor closed;
(2) when the handle is closing or closed after the events `pre` at the head of the queue
have been examined, the events `post` behind them cause no invocation; and, the callback
having no access to the queue of the handle, (3) every event of the queue is freed, once,
in order, and (4) the queue is empty afterwards. -/
theorem C4_no_callback_once_closing (B : Build) (cb : uv_fs_event_cb) (st : State) :
    (∃ new, (uv__fsevents_cb B cb st).calls = st.calls ++ new ∧
      ∀ c ∈ new, c.handle.flags &&& (B.UV_CLOSING ||| B.UV_CLOSED) = 0) ∧
    (∀ pre post, st.handle.cf_events = pre ++ post →
      (uv__fsevents_cb B cb (withPending st pre)).handle.flags &&&
          (B.UV_CLOSING ||| B.UV_CLOSED) ≠ 0 →
      (uv__fsevents_cb B cb st).calls = (uv__fsevents_cb B cb (withPending st pre)).calls) ∧
    ((∀ g p k s, (cb g p k s).cf_events = g.cf_events) →
      (uv__fsevents_cb B cb st).freed = st.freed ++ st.handle.cf_events ∧
      (uv__fsevents_cb B cb st).handle.cf_events = []) := by
  refine ⟨?_, ?_, ?_⟩
  · rw [uv__fsevents_cb_calls]
    exact walkLoop_dispatch_calls B cb st.handle.cf_events (withPending st [])
  · intro pre post hsplit hclosing
    rw [uv__fsevents_cb_flags] at hclosing
    rw [uv__fsevents_cb_calls, uv__fsevents_cb_calls, hsplit, walkLoop_append]
    have hpre : withPending (withPending st pre) [] = withPending st [] := rfl
    have hpq : (withPending st pre).handle.cf_events = pre := rfl
    rw [hpre, hpq] at hclosing ⊢
    rw [walkLoop_inactive B _ post _ hclosing]
  · intro hframe
    have hq : (walkLoop B (dispatchBlock cb) st.handle.cf_events
        (withPending st [])).handle.cf_events = [] := by
      rw [walkLoop_dispatch_cf_events B cb hframe]
      rfl
    have hf : (walkLoop B (dispatchBlock cb) st.handle.cf_events (withPending st [])).freed =
        st.freed ++ st.handle.cf_events := by
      rw [walkLoop_freed B _ (dispatchBlock_freed cb)]
      rfl
    constructor
    · rw [uv__fsevents_cb_eq]
      split
      · rw [(uv__fsevents_close_frame B _).2.2.1 hq, hf]
      · exact hf
    · rw [uv__fsevents_cb_eq]
      split
      · exact (uv__fsevents_close_frame B _).2.2.2 hq
      · exact hq

/-- C4 at a concrete input: two events are queued and the callback closes the handle when
it is invoked for the first. -/
theorem C4_no_callback_once_closing_witness :
    (uv__fsevents_cb build_10_7 closingCallback
        (withPending (withPending watched [⟨uv_fs_event.UV_CHANGE, "a".toList⟩,
          ⟨uv_fs_event.UV_RENAME, "b".toList⟩])
          [⟨uv_fs_event.UV_CHANGE, "a".toList⟩])).handle.flags &&&
      (build_10_7.UV_CLOSING ||| build_10_7.UV_CLOSED) ≠ 0 ∧
    (uv__fsevents_cb build_10_7 closingCallback
        (withPending watched [⟨uv_fs_event.UV_CHANGE, "a".toList⟩,
          ⟨uv_fs_event.UV_RENAME, "b".toList⟩])).calls =
      (uv__fsevents_cb build_10_7 closingCallback
        (withPending (withPending watched [⟨uv_fs_event.UV_CHANGE, "a".toList⟩,
          ⟨uv_fs_event.UV_RENAME, "b".toList⟩])
          [⟨uv_fs_event.UV_CHANGE, "a".toList⟩])).calls ∧
    (uv__fsevents_cb build_10_7 closingCallback
        (withPending watched [⟨uv_fs_event.UV_CHANGE, "a".toList⟩,
          ⟨uv_fs_event.UV_RENAME, "b".toList⟩])).freed =
      (withPending watched [⟨uv_fs_event.UV_CHANGE, "a".toList⟩,
          ⟨uv_fs_event.UV_RENAME, "b".toList⟩]).freed ++
        (withPending watched [⟨uv_fs_event.UV_CHANGE, "a".toList⟩,
          ⟨uv_fs_event.UV_RENAME, "b".toList⟩]).handle.cf_events ∧
    (uv__fsevents_cb build_10_7 closingCallback
        (withPending watched [⟨uv_fs_event.UV_CHANGE, "a".toList⟩,
          ⟨uv_fs_event.UV_RENAME, "b".toList⟩])).handle.cf_events = [] :=
  have h := C4_no_callback_once_closing build_10_7 closingCallback
    (withPending watched [⟨uv_fs_event.UV_CHANGE, "a".toList⟩,
      ⟨uv_fs_event.UV_RENAME, "b".toList⟩])
  ⟨by decide,
    h.2.1 [⟨uv_fs_event.UV_CHANGE, "a".toList⟩] [⟨uv_fs_event.UV_RENAME, "b".toList⟩] rfl
      (by decide),
    h.2.2 (fun _ _ _ _ => rfl)⟩

/-- C5: for a handle that has a native stream, whatever its flags and however many events
are pending, `uv__fsevents_close` returns 0, frees every pending event once and in order,
leaves the queue empty, and does not invoke the user callback. -/
theorem C5_close_drains_without_delivering (B : Build) (st : State) (stream : Nat)
    (h : st.handle.cf_eventstream = some stream) :
    (uv__fsevents_close B st).2 = 0 ∧
    (uv__fsevents_close B st).1.handle.cf_events = [] ∧
    (uv__fsevents_close B st).1.freed = st.freed ++ st.handle.cf_events ∧
    (uv__fsevents_close B st).1.calls = st.calls := by
  rw [uv__fsevents_close_some B st stream h]
  exact ⟨rfl, rfl, rfl, rfl⟩

/-- C5 at a concrete input: two events are pending on an active handle. -/
theorem C5_close_drains_without_delivering_witness :
    (uv__fsevents_close build_10_7
        (withPending watched [⟨uv_fs_event.UV_CHANGE, "a".toList⟩,
          ⟨uv_fs_event.UV_RENAME, "b".toList⟩])).2 = 0 ∧
    (uv__fsevents_close build_10_7
        (withPending watched [⟨uv_fs_event.UV_CHANGE, "a".toList⟩,
          ⟨uv_fs_event.UV_RENAME, "b".toList⟩])).1.handle.cf_events = [] ∧
    (uv__fsevents_close build_10_7
        (withPending watched [⟨uv_fs_event.UV_CHANGE, "a".toList⟩,
          ⟨uv_fs_event.UV_RENAME, "b".toList⟩])).1.freed =
      (withPending watched [⟨uv_fs_event.UV_CHANGE, "a".toList⟩,
          ⟨uv_fs_event.UV_RENAME, "b".toList⟩]).freed ++
        (withPending watched [⟨uv_fs_event.UV_CHANGE, "a".toList⟩,
          ⟨uv_fs_event.UV_RENAME, "b".toList⟩]).handle.cf_events ∧
    (uv__fsevents_close build_10_7
        (withPending watched [⟨uv_fs_event.UV_CHANGE, "a".toList⟩,
          ⟨uv_fs_event.UV_RENAME, "b".toList⟩])).1.calls =
      (withPending watched [⟨uv_fs_event.UV_CHANGE, "a".toList⟩,
          ⟨uv_fs_event.UV_RENAME, "b".toList⟩]).calls :=
  C5_close_drains_without_delivering build_10_7
    (withPending watched [⟨uv_fs_event.UV_CHANGE, "a".toList⟩,
      ⟨uv_fs_event.UV_RENAME, "b".toList⟩]) 1 rfl

/-- C7: `uv__fsevents_close` returns `-EINVAL` exactly when `cf_eventstream` is `NULL`,
and then it changes nothing at all: no field of the handle, and no call leaves the
function. A close that returns 0 has set `cf_eventstream` to `NULL`, so a second close
right after it returns `-EINVAL` and changes nothing. -/
theorem C7_close_twice (B : Build) (st : State) :
    ((uv__fsevents_close B st).2 = -(EINVAL : Int) ↔ st.handle.cf_eventstream = none) ∧
    (st.handle.cf_eventstream = none → uv__fsevents_close B st = (st, -(EINVAL : Int))) ∧
    ((uv__fsevents_close B st).2 = 0 →
      (uv__fsevents_close B st).1.handle.cf_eventstream = none ∧
      uv__fsevents_close B (uv__fsevents_close B st).1 =
        ((uv__fsevents_close B st).1, -(EINVAL : Int))) := by
  cases h : st.handle.cf_eventstream with
  | none =>
    rw [uv__fsevents_close_none B st h]
    refine ⟨by simp, fun _ => rfl, ?_⟩
    intro h0
    simp [EINVAL] at h0
  | some stream =>
    rw [uv__fsevents_close_some B st stream h]
    refine ⟨?_, ?_, ?_⟩
    · constructor
      · intro h0
        simp [EINVAL] at h0
      · intro h0
        exact Option.noConfusion h0
    · intro h0
      exact Option.noConfusion h0
    · intro _
      exact ⟨rfl, uv__fsevents_close_none B _ rfl⟩

/-- C7 at a concrete input: a handle with a stream and one pending event is closed twice. -/
theorem C7_close_twice_witness :
    (uv__fsevents_close build_10_7
        (withPending watched [⟨uv_fs_event.UV_CHANGE, "a".toList⟩])).2 = 0 ∧
    (uv__fsevents_close build_10_7
        (withPending watched [⟨uv_fs_event.UV_CHANGE, "a".toList⟩])).1.handle.cf_eventstream =
      none ∧
    uv__fsevents_close build_10_7
        (uv__fsevents_close build_10_7
          (withPending watched [⟨uv_fs_event.UV_CHANGE, "a".toList⟩])).1 =
      ((uv__fsevents_close build_10_7
          (withPending watched [⟨uv_fs_event.UV_CHANGE, "a".toList⟩])).1,
        -(EINVAL : Int)) :=
  ⟨by decide,
    (C7_close_twice build_10_7
      (withPending watched [⟨uv_fs_event.UV_CHANGE, "a".toList⟩])).2.2 (by decide)⟩

end FSEvents
